import Mathlib

set_option maxHeartbeats 1000000

/-! Verification of the actor-js message plane: a shallow embedding of the
address, registry, ask/tell and cancellation machinery of `src/System.ts`
and `src/createActor.ts`. JavaScript strings are modelled as lists of
characters (`JStr`); optional JavaScript object properties are modelled as
`Option` fields, with `none` standing for an absent property. -/

/-- JavaScript strings, modelled as lists of characters. -/
abbrev JStr := List Char

/-- The system's own address, `this.address = '/system'` (System.ts line 45). -/
def systemAddress : JStr := "/system".toList

/-- JavaScript `s.indexOf(pat) !== -1`: `pat` occurs in `s` as a contiguous
substring. -/
def jsContains (s pat : JStr) : Bool := decide (pat <:+: s)

/-- `System.createActorAddress` (System.ts 308-318). An empty path is
replaced by a freshly generated uuid, modelled here as the `uuid`
parameter; if the resulting path does not contain `'/system'` as a
substring (`indexOf === -1`), the system address and the path are joined
with `'/'`; otherwise the path is returned as-is. -/
def createActorAddress (uuid path : JStr) : JStr :=
  let p := if path = [] then uuid else path
  if jsContains p systemAddress then p
  else systemAddress ++ '/' :: p

/-- JavaScript `address.split('/')`: split at every `'/'`, keeping empty
chunks (so `'/system'.split('/')` is `['', 'system']`). -/
def splitSlash : JStr → List JStr
  | [] => [[]]
  | c :: rest =>
    if c = '/' then [] :: splitSlash rest
    else (c :: (splitSlash rest).headI) :: (splitSlash rest).tail

/-- JavaScript `chunks.join('/')`. -/
def joinSlash : List JStr → JStr
  | [] => []
  | [chunk] => chunk
  | chunk :: rest => chunk ++ '/' :: joinSlash rest

/-- `System.getParentRef` (System.ts 320-323): the address of the parent
reference is `address.split('/').slice(0, -1).join('/')`; `createContext`
(System.ts 221-232) stores `getParentRef parentAddress` as the context's
`parent`. -/
def parentAddress (address : JStr) : JStr :=
  joinSlash (splitSlash address).dropLast

/-- The lookup path of `System.actorSelection` (System.ts 164-170): a search
whose first character is `'/'` is used as-is, otherwise it is anchored
under the prefix argument (the system address when absent), joined with
`'/'`. -/
def selectionLookup (anchor search : JStr) : JStr :=
  if search.head? = some '/' then search
  else anchor ++ '/' :: search

/-- JavaScript `lookup.replace(/\x2f$/, '')` of System.ts line 173: drop one
trailing slash. -/
def stripTrailingSlash (s : JStr) : JStr :=
  if s.getLast? = some '/' then s.dropLast else s

/-- Modelled from the spec: `anymatch` is an external "glob-based wildcard
address matching" utility, "assumed available as a utility returning a
predicate over strings"; for a search pattern containing no wildcard
characters that predicate is equality with the pattern. -/
def literalMatch (pat s : JStr) : Bool := decide (s = pat)

/-- `System.actorSelection` (System.ts 159-180), restricted to wildcard-free
search patterns: the registered addresses matching the anchored,
trailing-slash-stripped lookup; each is wrapped in an ActorRef carrying
exactly that address. -/
def actorSelectionAddrs (registerKeys : List JStr) (anchor search : JStr) : List JStr :=
  registerKeys.filter (literalMatch (stripTrailingSlash (selectionLookup anchor search)))

/-- An actor record held in the register: its `address` property and an
incarnation tag standing in for the rest of the live object
(src/createActor.ts). -/
structure ActorRec where
  address : JStr
  tag : Nat
deriving DecidableEq

/-- The actor register, a JavaScript object keyed by address: an ordered
list of key/record pairs with at most one entry per key. -/
abbrev Register := List (JStr × ActorRec)

/-- Reading `register[k]`: the record stored under key `k`, if any. -/
def lookupActor (reg : Register) (k : JStr) : Option ActorRec :=
  (reg.find? (fun e => e.1 == k)).map (fun e => e.2)

/-- `addActor` (createActor.ts 62-65): `register[actor.address] = actor` — a
JavaScript property assignment replaces the record at an existing key in
place and otherwise appends the new key in insertion order. -/
def addActor (reg : Register) (actor : ActorRec) : Register :=
  if reg.any (fun e => e.1 == actor.address) then
    reg.map (fun e => if e.1 == actor.address then (actor.address, actor) else e)
  else reg ++ [(actor.address, actor)]

/-- `removeActor` (createActor.ts 67-75): rebuild the register from its keys,
skipping the key equal to the given ref's address. -/
def removeActor (reg : Register) (refAddress : JStr) : Register :=
  reg.filter (fun e => !(e.1 == refAddress))

/-- The `message` part of an incoming envelope: target address, action type
and payload, and the sender's context address (src/types, as used by
System.ts). -/
structure MessageBody where
  address : JStr
  actionType : JStr
  payload : Option JStr
  contextCreator : Option JStr
deriving DecidableEq

/-- An IncomingMessage envelope `{messageID, message}`. -/
structure IncomingMessage where
  messageID : JStr
  message : MessageBody
deriving DecidableEq

/-- A MessageResponse envelope as observed by `ask` on the responses and
cancelations streams: `respId`, an optional `response`, an `errors` list and
the optional `cancelled` property. -/
structure MessageResponse where
  respId : JStr
  response : Option JStr
  errors : List JStr
  cancelled : Option Bool
deriving DecidableEq

/-- Which of the two merged streams of `ask` an envelope arrived on. -/
inductive RespSource
  | fromResponses
  | fromCancelations
deriving DecidableEq

/-- The per-element map of ask's cancelations branch (System.ts 266-271):
`Object.assign({}, x, {cancelled: true})` for envelopes arriving on
`cancelations`; envelopes arriving on `responses` pass unchanged. -/
def markCancelled : RespSource × MessageResponse → MessageResponse
  | (.fromResponses, m) => m
  | (.fromCancelations, m) => { m with cancelled := some true }

/-- Ask's merged response track up to `take(1)` (System.ts 262-275): both
streams are filtered by `respId === messageID`, the cancelations elements
are marked cancelled, and the first element of the merged arrival-order
sequence is kept. -/
def askFirstMatch (messageID : JStr) (merged : List (RespSource × MessageResponse)) :
    Option MessageResponse :=
  ((merged.filter (fun e => e.2.respId == messageID)).map markCancelled).head?

/-- The three ways an ask settles. -/
inductive AskOutcome
  | failed (error : JStr)
  | completedEmpty
  | emitted (value : Option JStr)
deriving DecidableEq

/-- Ask's `mergeMap` body (System.ts 276-284): a non-empty errors list fails
with the first error, a truthy `cancelled` completes without a value, and
otherwise the `response` field is emitted. -/
def askSettle (m : MessageResponse) : AskOutcome :=
  match m.errors with
  | e :: _ => .failed e
  | [] => if m.cancelled = some true then .completedEmpty else .emitted m.response

/-- The settlement of `System.ask` for a given messageID over the merged
arrival-order sequence of responses/cancelations envelopes: the first
matching envelope decides the single outcome; `none` when no envelope ever
matches (the ask never settles). -/
def askResult (messageID : JStr) (merged : List (RespSource × MessageResponse)) :
    Option AskOutcome :=
  (askFirstMatch messageID merged).map askSettle

/-- The cancellation envelope `System.cleanupCancelledMessages` publishes for
a superseded message (System.ts 427-434):
`Object.assign({}, msg, {respId: msg.messageID}, {errors: []})` — a copy of
the incoming envelope's own properties extended with `respId` and an empty
`errors` list; no `response` property and no `cancelled` property is set. -/
structure CancellationEnvelope where
  messageID : JStr
  message : MessageBody
  respId : JStr
  errors : List JStr
  response : Option JStr
  cancelled : Option Bool
deriving DecidableEq

/-- An element of the user function's output stream: `respond` in
`System.addResponse` (System.ts 396-398) returns
`Object.assign({}, msg, {resp, state})`, so each output element carries the
originating messageID. -/
structure OutputElement where
  messageID : JStr
  resp : Option JStr
deriving DecidableEq

/-- Build the published cancellation envelope for one superseded message
(System.ts 427-434). -/
def publishedCancellation (msg : IncomingMessage) : CancellationEnvelope :=
  { messageID := msg.messageID
  , message := msg.message
  , respId := msg.messageID
  , errors := []
  , response := none
  , cancelled := none }

/-- The body of the `withLatestFrom` projection (System.ts 422-438): every
accumulated message whose messageID differs from the output element's is
turned into a cancellation envelope and published. -/
def cancellationsFor (all : List IncomingMessage) (out : OutputElement) :
    List CancellationEnvelope :=
  (all.filter (fun x => x.messageID != out.messageID)).map publishedCancellation

/-- One observable event inside `cleanupCancelledMessages`: the arrival of a
message on the actor's incoming stream, or an emission of the user
function's output stream. -/
inductive CleanupEvent
  | arrival (msg : IncomingMessage)
  | emission (out : OutputElement)
deriving DecidableEq

/-- The observable state of one run of `cleanupCancelledMessages`: the
`scan` accumulator of type-filtered messages (System.ts 415-419), the
cancellation envelopes published onto the system cancelations stream so
far, and the elements passed downstream. -/
structure CleanupState where
  acc : List IncomingMessage
  published : List CancellationEnvelope
  downstream : List OutputElement
deriving DecidableEq

/-- One step of `cleanupCancelledMessages` (System.ts 406-444): an arriving
message of the operator's action type is appended to the scan accumulator
(the accumulator is only ever appended to, never cleared); an output
emission publishes a cancellation for every accumulated message with a
different messageID — `withLatestFrom` pairs the emission with the
accumulator's latest value — and passes the element downstream unchanged. -/
def cleanupStep (t : JStr) (s : CleanupState) : CleanupEvent → CleanupState
  | .arrival m =>
    if m.message.actionType == t then { s with acc := s.acc ++ [m] } else s
  | .emission out =>
    { s with
      published := s.published ++ cancellationsFor s.acc out
      downstream := s.downstream ++ [out] }

/-- A whole run of `cleanupCancelledMessages` over an arrival-order event
sequence, from the operator's initial empty state. -/
def cleanupRun (t : JStr) (events : List CleanupEvent) : CleanupState :=
  events.foldl (cleanupStep t) ⟨[], [], []⟩

/-- A JavaScript value handed to the supervision calls: a falsy value
(null, undefined, false, 0, ''), a truthy object with a string `address`
property, or a truthy value without one. -/
inductive SuperviseArg
  | falsy
  | refWith (address : JStr)
  | truthyNonRef
deriving DecidableEq

/-- JavaScript truthiness, as used by `filter(Boolean)` (System.ts 349) and
by `isActorRef`'s falsy check. -/
def jsTruthy : SuperviseArg → Bool
  | .falsy => false
  | _ => true

/-- `System.isActorRef` (System.ts 365-374): false for anything falsy, true
exactly when the value has a string `address` property. -/
def isActorRef : SuperviseArg → Bool
  | .falsy => false
  | .refWith _ => true
  | .truthyNonRef => false

/-- The argument of `gracefulStop` (System.ts 348): a single value or an
array; `[].concat` wraps a single value into a one-element array. -/
inductive StopInput
  | single (v : SuperviseArg)
  | array (vs : List SuperviseArg)

/-- `[].concat(actorRefs)` (System.ts 349). -/
def stopInputList : StopInput → List SuperviseArg
  | .single v => [v]
  | .array vs => vs

/-- `System.gracefulStop`'s validation (System.ts 348-353): falsy entries
are dropped by `filter(Boolean)` first; if any surviving entry fails
`isActorRef`, `warnInvalidActorRef` throws synchronously, before any stop
sequence is built; otherwise the surviving refs are stopped serially. -/
def gracefulStopRefs (input : StopInput) : Except Unit (List SuperviseArg) :=
  let refs := (stopInputList input).filter jsTruthy
  if refs.all isActorRef then .ok refs else .error ()

/-- An outgoing message as handed to `ask`/`tell` (src/types). -/
structure OutgoingMessage where
  address : JStr
  actionType : JStr
  payload : Option JStr
deriving DecidableEq

/-- The envelope `{message, messageID}` that ask's send track pushes onto
the arbiter (System.ts 287-289). -/
structure ArbiterEnvelope where
  message : OutgoingMessage
  messageID : JStr
deriving DecidableEq

/-- The message-scheduler model: the arbiter's log of pushed envelopes and
the queue of pending scheduled tasks. `of(value, messageScheduler)` does
not emit during the caller's current synchronous turn; it enqueues a task
that emits on a later scheduler turn. -/
structure SchedulerState where
  arbiterLog : List ArbiterEnvelope
  queue : List ArbiterEnvelope
deriving DecidableEq

/-- Subscribing to ask's messageSender (System.ts 287-290):
`of({message, messageID}, this.messageScheduler)` piped into
`tap(x => this.arbiter.next(x))` schedules the send on the message
scheduler; nothing is pushed onto the arbiter synchronously, and the
zip of System.ts 292 cannot complete before the scheduled send has run. -/
def askSend (env : ArbiterEnvelope) (s : SchedulerState) : SchedulerState :=
  { s with queue := s.queue ++ [env] }

/-- One message-scheduler turn: the oldest pending task runs and pushes its
envelope onto the arbiter. -/
def runTurn (s : SchedulerState) : SchedulerState :=
  match s.queue with
  | [] => s
  | task :: rest => { arbiterLog := s.arbiterLog ++ [task], queue := rest }

/-- Sample message a (burst position 1) for concrete witnesses. -/
def msgA : IncomingMessage :=
  ⟨"a".toList, ⟨"/system/x".toList, "go".toList, none, none⟩⟩

/-- Sample message b (burst position 2) for concrete witnesses. -/
def msgB : IncomingMessage :=
  ⟨"b".toList, ⟨"/system/x".toList, "go".toList, none, none⟩⟩

/-- Sample message c (burst position 3) for concrete witnesses. -/
def msgC : IncomingMessage :=
  ⟨"c".toList, ⟨"/system/x".toList, "go".toList, none, none⟩⟩

/-- Sample output element answering message c. -/
def outC : OutputElement := ⟨"c".toList, some "done".toList⟩

/-- Sample output element answering message b. -/
def outB : OutputElement := ⟨"b".toList, some "done".toList⟩

theorem splitSlash_ne_nil (s : JStr) : splitSlash s ≠ [] := by
  induction s with
  | nil => simp [splitSlash]
  | cons c rest ih =>
    by_cases hc : c = '/' <;> simp [splitSlash, hc]

theorem splitSlash_no_slash (seg : JStr) (h : '/' ∉ seg) : splitSlash seg = [seg] := by
  induction seg with
  | nil => rfl
  | cons c rest ih =>
    have hc : c ≠ '/' := fun hc => h (hc ▸ List.mem_cons_self _ _)
    have hrest : '/' ∉ rest := fun hm => h (List.mem_cons_of_mem _ hm)
    simp [splitSlash, hc, ih hrest]

theorem splitSlash_append_seg (pre seg : JStr) (h : '/' ∉ seg) :
    splitSlash (pre ++ '/' :: seg) = splitSlash pre ++ [seg] := by
  induction pre with
  | nil =>
    simp [splitSlash, splitSlash_no_slash seg h]
  | cons c rest ih =>
    cases hr : splitSlash rest with
    | nil => exact absurd hr (splitSlash_ne_nil rest)
    | cons hd tl =>
      by_cases hc : c = '/'
      · simp [splitSlash, hc, ih]
      · simp [splitSlash, hc, ih, hr]

theorem joinSlash_splitSlash (s : JStr) : joinSlash (splitSlash s) = s := by
  induction s with
  | nil => rfl
  | cons c rest ih =>
    cases hr : splitSlash rest with
    | nil => exact absurd hr (splitSlash_ne_nil rest)
    | cons hd tl =>
      rw [hr] at ih
      by_cases hc : c = '/'
      · subst hc
        simp only [splitSlash, if_pos rfl, hr, joinSlash]
        simpa [joinSlash] using ih
      · cases tl with
        | nil =>
          simp only [splitSlash, if_neg hc, hr, List.headI_cons, List.tail_cons, joinSlash]
          simp [joinSlash] at ih
          simp [ih]
        | cons x xs =>
          simp only [splitSlash, if_neg hc, hr, List.headI_cons, List.tail_cons, joinSlash]
          simp [joinSlash] at ih
          simp [ih]

/-- C3 counterexample: for the input path 'a/system' the returned address is
'a/system' itself — the substring check `indexOf('/system') !== -1` already
succeeds — and that address does not start with the system prefix
'/system', contradicting the claim that every returned address starts with
it. -/
theorem createActorAddress_not_anchored_cex :
    createActorAddress "u".toList "a/system".toList = "a/system".toList ∧
    ¬ ("/system".toList <+: "a/system".toList) := by
  constructor
  · rfl
  · decide

/-- C3 (amended): for every generated uuid and input path, the address
returned by createActorAddress contains the system prefix '/system' as a
substring (a uuid is used when the path is empty); when the path-or-uuid
does not already contain '/system', the prefix is prepended, so the result
then even starts with '/system/'. Registry keys produced through actorOf
therefore all contain the system prefix, though they need not start with
it. -/
theorem createActorAddress_contains_system :
    (∀ uuid path : JStr, systemAddress <:+: createActorAddress uuid path) ∧
    (∀ uuid path : JStr,
      jsContains (if path = [] then uuid else path) systemAddress = false →
      systemAddress ++ ['/'] <+: createActorAddress uuid path) := by
  constructor
  · intro uuid path
    unfold createActorAddress
    set p := if path = [] then uuid else path with hp
    cases h : jsContains p systemAddress with
    | true =>
      simp only [h, if_true]
      simpa [jsContains] using h
    | false =>
      simp only [h, Bool.false_eq_true, if_false]
      exact (List.prefix_append _ _).isInfix
  · intro uuid path h
    unfold createActorAddress
    simp only [h, Bool.false_eq_true, if_false]
    have happ : systemAddress ++ ['/'] ++ (if path = [] then uuid else path) =
        systemAddress ++ '/' :: (if path = [] then uuid else path) := by simp
    rw [← happ]
    exact List.prefix_append _ _

/-- C5 counterexample: for the root address '/system' itself,
`'/system'.split('/')` is `['', 'system']`, so dropping the last segment
and rejoining yields the empty string, not the system prefix the claim
requires. -/
theorem parentAddress_of_system_cex :
    parentAddress systemAddress = [] ∧ ([] : JStr) ≠ systemAddress := by
  constructor
  · decide
  · decide

/-- C5 (amended): the parent reference's address is the actor's address
minus its last forward-slash-separated segment; for the system prefix
'/system' itself that parent address is the empty string (not the system
prefix). -/
theorem parentAddress_drops_last_segment :
    (∀ pre seg : JStr, '/' ∉ seg → parentAddress (pre ++ '/' :: seg) = pre) ∧
    parentAddress systemAddress = [] := by
  constructor
  · intro pre seg h
    unfold parentAddress
    rw [splitSlash_append_seg pre seg h, List.dropLast_concat, joinSlash_splitSlash]
  · decide

/-- C7 counterexample: for the factory path '/foo' (absolute but not under
the system prefix), actorOf canonicalises the address to '/system//foo',
while actorSelection('/foo') treats the search as absolute and looks up
'/foo' itself; the selection over a register holding exactly the created
actor returns no reference at all, so no returned reference carries the
created actor's address. -/
theorem actorSelection_roundtrip_cex :
    createActorAddress "u".toList "/foo".toList = "/system//foo".toList ∧
    actorSelectionAddrs [createActorAddress "u".toList "/foo".toList]
      systemAddress "/foo".toList = [] := by
  constructor
  · rfl
  · decide

/-- C7 (amended): when the path is non-empty, relative (no leading slash),
free of the substring '/system' and of a trailing slash, and contains no
wildcard characters (the anymatch predicate is then equality), actorOf
followed by actorSelection over any register containing the created address
returns references whose address is exactly the created actor's address,
and at least one such reference. -/
theorem actorSelection_finds_created (uuid p : JStr) (keys : List JStr)
    (hhead : p.head? ≠ some '/') (hne : p ≠ [])
    (hcontains : jsContains p systemAddress = false)
    (hlast : p.getLast? ≠ some '/')
    (hmem : createActorAddress uuid p ∈ keys) :
    createActorAddress uuid p ∈ actorSelectionAddrs keys systemAddress p ∧
    ∀ a ∈ actorSelectionAddrs keys systemAddress p, a = createActorAddress uuid p := by
  obtain ⟨c, rest, rfl⟩ : ∃ c rest, p = c :: rest := by
    cases p with
    | nil => exact absurd rfl hne
    | cons c rest => exact ⟨c, rest, rfl⟩
  have hc : c ≠ '/' := by
    intro h
    exact hhead (by simp [h])
  have haddr : createActorAddress uuid (c :: rest) =
      systemAddress ++ '/' :: c :: rest := by
    simp [createActorAddress, hcontains]
  have hlook : selectionLookup systemAddress (c :: rest) =
      systemAddress ++ '/' :: c :: rest := by
    simp [selectionLookup, hc]
  have hstrip : stripTrailingSlash (selectionLookup systemAddress (c :: rest)) =
      systemAddress ++ '/' :: c :: rest := by
    rw [hlook]
    unfold stripTrailingSlash
    rw [List.getLast?_append_cons, List.getLast?_cons_cons]
    rw [if_neg hlast]
  constructor
  · rw [actorSelectionAddrs, List.mem_filter]
    refine ⟨hmem, ?_⟩
    simp [literalMatch, hstrip, haddr]
  · intro a ha
    rw [actorSelectionAddrs, List.mem_filter] at ha
    have hmatch := ha.2
    simp [literalMatch, hstrip] at hmatch
    rw [hmatch, haddr]

/-- C7 witness: a concrete roundtrip — the actor created at relative path
'child' is found by selecting 'child'. -/
theorem actorSelection_finds_created_witness :
    createActorAddress "u".toList "child".toList ∈
      actorSelectionAddrs [createActorAddress "u".toList "child".toList]
        systemAddress "child".toList :=
  (actorSelection_finds_created "u".toList "child".toList
    [createActorAddress "u".toList "child".toList]
    (by decide) (by decide) (by decide) (by decide) (by decide)).1

theorem lookup_removeActor_self (reg : Register) (a : JStr) :
    lookupActor (removeActor reg a) a = none := by
  induction reg with
  | nil => rfl
  | cons e rest ih =>
    unfold removeActor at ih ⊢
    rw [List.filter_cons]
    by_cases he : e.1 = a
    · rw [if_neg (by simp [he])]
      exact ih
    · rw [if_pos (by simp [he])]
      unfold lookupActor
      rw [List.find?_cons_of_neg _ (by simp [he])]
      exact ih

theorem lookup_removeActor_other (reg : Register) (a k : JStr) (hk : k ≠ a) :
    lookupActor (removeActor reg a) k = lookupActor reg k := by
  induction reg with
  | nil => rfl
  | cons e rest ih =>
    unfold removeActor at ih ⊢
    rw [List.filter_cons]
    by_cases he : e.1 = a
    · have hek : ¬ (e.1 = k) := by
        rw [he]
        exact fun h => hk h.symm
      rw [if_neg (by simp [he])]
      unfold lookupActor
      rw [List.find?_cons_of_neg _ (by simp [hek])]
      exact ih
    · by_cases hek : e.1 = k
      · rw [if_pos (by simp [he])]
        unfold lookupActor
        rw [List.find?_cons_of_pos _ (by simp [hek]),
          List.find?_cons_of_pos _ (by simp [hek])]
      · rw [if_pos (by simp [he])]
        unfold lookupActor
        rw [List.find?_cons_of_neg _ (by simp [hek]),
          List.find?_cons_of_neg _ (by simp [hek])]
        exact ih

theorem lookup_replace_self (reg : Register) (actor : ActorRec)
    (hany : reg.any (fun e => e.1 == actor.address) = true) :
    lookupActor
      (reg.map (fun e => if e.1 == actor.address then (actor.address, actor) else e))
      actor.address = some actor := by
  induction reg with
  | nil => simp at hany
  | cons e rest ih =>
    rw [List.map_cons]
    by_cases he : e.1 = actor.address
    · rw [if_pos (by simp [he])]
      unfold lookupActor
      rw [List.find?_cons_of_pos _ (by simp)]
      rfl
    · have hrest : rest.any (fun e => e.1 == actor.address) = true := by
        simp only [List.any_cons, Bool.or_eq_true] at hany
        rcases hany with h | h
        · exact absurd (by simpa using h) he
        · exact h
      rw [if_neg (by simp [he])]
      unfold lookupActor
      rw [List.find?_cons_of_neg _ (by simp [he])]
      exact ih hrest

theorem lookup_replace_other (reg : Register) (actor : ActorRec) (k : JStr)
    (hk : k ≠ actor.address) :
    lookupActor
      (reg.map (fun e => if e.1 == actor.address then (actor.address, actor) else e))
      k = lookupActor reg k := by
  induction reg with
  | nil => rfl
  | cons e rest ih =>
    rw [List.map_cons]
    by_cases he : e.1 = actor.address
    · have hek : ¬ (e.1 = k) := by
        rw [he]; exact fun h => hk h.symm
      have hak : ¬ (actor.address = k) := fun h => hk h.symm
      rw [if_pos (by simp [he])]
      unfold lookupActor
      rw [List.find?_cons_of_neg _ (by simp [hak]),
        List.find?_cons_of_neg _ (by simp [hek])]
      exact ih
    · by_cases hek : e.1 = k
      · rw [if_neg (by simp [he])]
        unfold lookupActor
        rw [List.find?_cons_of_pos _ (by simp [hek]),
          List.find?_cons_of_pos _ (by simp [hek])]
      · rw [if_neg (by simp [he])]
        unfold lookupActor
        rw [List.find?_cons_of_neg _ (by simp [hek]),
          List.find?_cons_of_neg _ (by simp [hek])]
        exact ih

theorem lookup_append_self (reg : Register) (actor : ActorRec)
    (hany : ¬ reg.any (fun e => e.1 == actor.address) = true) :
    lookupActor (reg ++ [(actor.address, actor)]) actor.address = some actor := by
  induction reg with
  | nil =>
    unfold lookupActor
    rw [List.nil_append, List.find?_cons_of_pos _ (by simp)]
    rfl
  | cons e rest ih =>
    simp only [List.any_cons, Bool.or_eq_true, not_or] at hany
    have he : ¬ (e.1 = actor.address) := by
      intro h
      exact hany.1 (by simp [h])
    have hrest : ¬ rest.any (fun e => e.1 == actor.address) = true := hany.2
    rw [List.cons_append]
    unfold lookupActor
    rw [List.find?_cons_of_neg _ (by simp [he])]
    exact ih hrest

theorem lookup_append_other (reg : Register) (actor : ActorRec) (k : JStr)
    (hk : k ≠ actor.address) :
    lookupActor (reg ++ [(actor.address, actor)]) k = lookupActor reg k := by
  induction reg with
  | nil =>
    have hak : ¬ (actor.address = k) := fun h => hk h.symm
    unfold lookupActor
    rw [List.nil_append, List.find?_cons_of_neg _ (by simp [hak])]
  | cons e rest ih =>
    rw [List.cons_append]
    unfold lookupActor
    by_cases hek : e.1 = k
    · rw [List.find?_cons_of_pos _ (by simp [hek]),
        List.find?_cons_of_pos _ (by simp [hek])]
    · rw [List.find?_cons_of_neg _ (by simp [hek]),
        List.find?_cons_of_neg _ (by simp [hek])]
      exact ih

/-- C10: removeActor leaves no record at the removed ref's address and
keeps the record at every other address unchanged; addActor stores the
actor at exactly its own address key, replacing any prior record there,
and leaves every other address's record unchanged. -/
theorem register_frame_properties :
    (∀ (reg : Register) (a : JStr), lookupActor (removeActor reg a) a = none) ∧
    (∀ (reg : Register) (a k : JStr), k ≠ a →
      lookupActor (removeActor reg a) k = lookupActor reg k) ∧
    (∀ (reg : Register) (actor : ActorRec),
      lookupActor (addActor reg actor) actor.address = some actor) ∧
    (∀ (reg : Register) (actor : ActorRec) (k : JStr), k ≠ actor.address →
      lookupActor (addActor reg actor) k = lookupActor reg k) := by
  refine ⟨lookup_removeActor_self, lookup_removeActor_other, ?_, ?_⟩
  · intro reg actor
    unfold addActor
    by_cases hany : reg.any (fun e => e.1 == actor.address) = true
    · rw [if_pos hany]
      exact lookup_replace_self reg actor hany
    · rw [if_neg hany]
      exact lookup_append_self reg actor hany
  · intro reg actor k hk
    unfold addActor
    by_cases hany : reg.any (fun e => e.1 == actor.address) = true
    · rw [if_pos hany]
      exact lookup_replace_other reg actor k hk
    · rw [if_neg hany]
      exact lookup_append_other reg actor k hk

theorem cleanupFold_arrivals (t : JStr) (msgs : List IncomingMessage) (s : CleanupState)
    (htyped : ∀ m ∈ msgs, m.message.actionType = t) :
    (msgs.map CleanupEvent.arrival).foldl (cleanupStep t) s =
      { s with acc := s.acc ++ msgs } := by
  induction msgs generalizing s with
  | nil => simp
  | cons m rest ih =>
    have hm : m.message.actionType = t := htyped m (List.mem_cons_self _ _)
    have hrest : ∀ x ∈ rest, x.message.actionType = t :=
      fun x hx => htyped x (List.mem_cons_of_mem _ hx)
    rw [List.map_cons, List.foldl_cons]
    have hstep : cleanupStep t s (.arrival m) = { s with acc := s.acc ++ [m] } := by
      simp only [cleanupStep]
      rw [if_pos (by simp [hm])]
    rw [hstep, ih _ hrest]
    simp

theorem cancellationsFor_of_last (init : List IncomingMessage) (lastMsg : IncomingMessage)
    (out : OutputElement)
    (hout : out.messageID = lastMsg.messageID)
    (hnodup : ((init ++ [lastMsg]).map IncomingMessage.messageID).Nodup) :
    cancellationsFor (init ++ [lastMsg]) out = init.map publishedCancellation := by
  unfold cancellationsFor
  have hfl : (init ++ [lastMsg]).filter (fun x => x.messageID != out.messageID) = init := by
    rw [List.filter_append]
    have h2 : [lastMsg].filter (fun x => x.messageID != out.messageID) = [] := by
      simp [hout]
    have h1 : init.filter (fun x => x.messageID != out.messageID) = init := by
      apply List.filter_eq_self.mpr
      intro x hx
      have hne : x.messageID ≠ lastMsg.messageID := by
        intro he
        rw [List.map_append, List.nodup_append] at hnodup
        exact hnodup.2.2 (List.mem_map_of_mem _ hx) (by simp [he])
      simp [hout, hne]
    rw [h1, h2, List.append_nil]
  rw [hfl]

/-- C2: for a FIFO burst of messages of the operator's action type with
distinct messageIDs, followed by one output emission of a latest-wins user
function answering the last message, exactly one element — the one for the
latest message — goes downstream as a normal response, and exactly the
other N-1 messages each get a cancellation envelope published onto the
cancelations stream, in burst order. -/
theorem cleanup_burst_supersession (t : JStr) (init : List IncomingMessage)
    (lastMsg : IncomingMessage) (out : OutputElement)
    (htyped : ∀ m ∈ init ++ [lastMsg], m.message.actionType = t)
    (hnodup : ((init ++ [lastMsg]).map IncomingMessage.messageID).Nodup)
    (hout : out.messageID = lastMsg.messageID) :
    cleanupRun t ((init ++ [lastMsg]).map CleanupEvent.arrival ++ [.emission out]) =
      { acc := init ++ [lastMsg]
      , published := init.map publishedCancellation
      , downstream := [out] } := by
  unfold cleanupRun
  rw [List.foldl_append, cleanupFold_arrivals t _ _ htyped]
  simp only [List.foldl_cons, List.foldl_nil, cleanupStep, List.nil_append]
  rw [cancellationsFor_of_last init lastMsg out hout hnodup]

/-- C2 witness: a concrete burst of three messages a, b, c of type 'go'
answered once for c — messages a and b are cancelled, c's output goes
downstream. -/
theorem cleanup_burst_supersession_witness :
    cleanupRun "go".toList
      (([msgA, msgB] ++ [msgC]).map CleanupEvent.arrival ++ [.emission outC]) =
      { acc := [msgA, msgB] ++ [msgC]
      , published := [msgA, msgB].map publishedCancellation
      , downstream := [outC] } :=
  cleanup_burst_supersession "go".toList [msgA, msgB] msgC outC
    (by decide) (by decide) (by decide)

/-- C4 counterexample: for a concrete superseded message the single
published envelope is the message's own fields extended with respId and an
empty errors list — its `cancelled` property is absent (`none`), not
`true`, and it carries the original `messageID` and `message` fields, so it
is not of the exact shape the claim states. -/
theorem cleanup_envelope_shape_cex :
    cancellationsFor [msgA] outB =
      [{ messageID := "a".toList
       , message := ⟨"/system/x".toList, "go".toList, none, none⟩
       , respId := "a".toList
       , errors := []
       , response := none
       , cancelled := none }] ∧
    (cancellationsFor [msgA] outB).map (fun e => e.cancelled) ≠ [some true] := by
  constructor
  · rfl
  · decide

/-- C4 (amended): for each output element, every accumulated message with a
different messageID gets exactly one published envelope, which is a copy of
that message's own properties extended with `respId := messageID` and
`errors := []` — with no `response` and no `cancelled` property set (the
`cancelled: true` mark is added later by ask's cancelations branch) — and
the output element itself is passed downstream unchanged. -/
theorem cleanup_publishes_and_passes_through (all : List IncomingMessage)
    (out : OutputElement) (t : JStr) (s : CleanupState) :
    cancellationsFor all out =
      (all.filter (fun x => x.messageID != out.messageID)).map
        (fun m =>
          { messageID := m.messageID
          , message := m.message
          , respId := m.messageID
          , errors := []
          , response := none
          , cancelled := none }) ∧
    (∀ m ∈ all, m.messageID ≠ out.messageID →
      publishedCancellation m ∈ cancellationsFor all out) ∧
    (cleanupStep t s (.emission out)).downstream = s.downstream ++ [out] ∧
    (cleanupStep t s (.emission out)).published =
      s.published ++ cancellationsFor s.acc out := by
  refine ⟨rfl, ?_, rfl, rfl⟩
  intro m hm hne
  unfold cancellationsFor
  exact List.mem_map_of_mem _ (List.mem_filter.mpr ⟨hm, by simp [hne]⟩)

theorem cleanupFold_acc_extends (t : JStr) (events : List CleanupEvent) (s : CleanupState) :
    ∃ tail, (events.foldl (cleanupStep t) s).acc = s.acc ++ tail := by
  induction events generalizing s with
  | nil => exact ⟨[], by simp⟩
  | cons e rest ih =>
    rw [List.foldl_cons]
    obtain ⟨tail, htail⟩ := ih (cleanupStep t s e)
    cases e with
    | arrival m =>
      by_cases hm : m.message.actionType == t
      · refine ⟨m :: tail, ?_⟩
        rw [htail]
        simp only [cleanupStep]
        rw [if_pos hm]
        simp
      · refine ⟨tail, ?_⟩
        rw [htail]
        simp only [cleanupStep]
        rw [if_neg hm]
    | emission o =>
      exact ⟨tail, htail⟩

theorem cleanupFold_published_extends (t : JStr) (events : List CleanupEvent)
    (s : CleanupState) :
    ∃ tail, (events.foldl (cleanupStep t) s).published = s.published ++ tail := by
  induction events generalizing s with
  | nil => exact ⟨[], by simp⟩
  | cons e rest ih =>
    rw [List.foldl_cons]
    obtain ⟨tail, htail⟩ := ih (cleanupStep t s e)
    cases e with
    | arrival m =>
      by_cases hm : m.message.actionType == t
      · refine ⟨tail, ?_⟩
        rw [htail]
        simp only [cleanupStep]
        rw [if_pos hm]
      · refine ⟨tail, ?_⟩
        rw [htail]
        simp only [cleanupStep]
        rw [if_neg hm]
    | emission o =>
      refine ⟨cancellationsFor s.acc o ++ tail, ?_⟩
      rw [htail]
      simp only [cleanupStep]
      simp

theorem mem_cancellationsFor (acc : List IncomingMessage) (o : OutputElement)
    (m : IncomingMessage) (hm : m ∈ acc) (hne : m.messageID ≠ o.messageID) :
    publishedCancellation m ∈ cancellationsFor acc o := by
  unfold cancellationsFor
  exact List.mem_map_of_mem _ (List.mem_filter.mpr ⟨hm, by simp [hne]⟩)

/-- C9: the scan accumulator only ever grows — after any further events it
is the old accumulator plus a suffix — and when the output stream emits
twice, a message accumulated before the first emission whose messageID
differs from both outputs' receives a published cancellation envelope at
each emission: its envelope occurs at least twice on the cancelations
stream. -/
theorem cleanup_superseded_cancelled_again (t : JStr)
    (pre mid post : List CleanupEvent) (o1 o2 : OutputElement) (m : IncomingMessage)
    (hm : m ∈ (cleanupRun t pre).acc)
    (h1 : m.messageID ≠ o1.messageID) (h2 : m.messageID ≠ o2.messageID) :
    (∃ tail, (cleanupRun t
        (pre ++ CleanupEvent.emission o1 :: (mid ++ CleanupEvent.emission o2 :: post))).acc =
      (cleanupRun t pre).acc ++ tail) ∧
    2 ≤ ((cleanupRun t
        (pre ++ CleanupEvent.emission o1 :: (mid ++ CleanupEvent.emission o2 :: post))).published.count
          (publishedCancellation m)) := by
  unfold cleanupRun
  rw [List.foldl_append, List.foldl_cons]
  rw [List.foldl_append, List.foldl_cons]
  set s1 := pre.foldl (cleanupStep t) ⟨[], [], []⟩ with hs1
  set s2 := cleanupStep t s1 (.emission o1) with hs2
  set s3 := mid.foldl (cleanupStep t) s2 with hs3
  set s4 := cleanupStep t s3 (.emission o2) with hs4
  have hp2 : s2.published = s1.published ++ cancellationsFor s1.acc o1 := by
    rw [hs2]; simp only [cleanupStep]
  have hacc2 : s2.acc = s1.acc := by
    rw [hs2]; simp only [cleanupStep]
  obtain ⟨tail3, hp3⟩ := cleanupFold_published_extends t mid s2
  obtain ⟨tailacc3, hacc3⟩ := cleanupFold_acc_extends t mid s2
  have hp4 : s4.published = s3.published ++ cancellationsFor s3.acc o2 := by
    rw [hs4]; simp only [cleanupStep]
  have hacc4 : s4.acc = s3.acc := by
    rw [hs4]; simp only [cleanupStep]
  obtain ⟨tail5, hp5⟩ := cleanupFold_published_extends t post s4
  obtain ⟨tailacc5, hacc5⟩ := cleanupFold_acc_extends t post s4
  constructor
  · refine ⟨tailacc3 ++ tailacc5, ?_⟩
    rw [hacc5, hacc4, hacc3, hacc2, List.append_assoc]
  · rw [hp5, hp4, hp3, hp2]
    have hmem1 : publishedCancellation m ∈ cancellationsFor s1.acc o1 :=
      mem_cancellationsFor _ _ _ hm h1
    have hmem2 : publishedCancellation m ∈ cancellationsFor s3.acc o2 := by
      apply mem_cancellationsFor _ _ _ _ h2
      rw [hacc3, hacc2]
      exact List.mem_append_left _ hm
    simp only [List.count_append]
    have hc1 : 1 ≤ (cancellationsFor s1.acc o1).count (publishedCancellation m) :=
      List.count_pos_iff.mpr hmem1
    have hc2 : 1 ≤ (cancellationsFor s3.acc o2).count (publishedCancellation m) :=
      List.count_pos_iff.mpr hmem2
    omega

/-- C9 witness: messages a and b arrive, an output for b supersedes a, then
an output for b again — message a's cancellation envelope is published (at
least) twice and the accumulator only grew. -/
theorem cleanup_superseded_cancelled_again_witness :
    (∃ tail, (cleanupRun "go".toList
        ([CleanupEvent.arrival msgA, CleanupEvent.arrival msgB] ++
          CleanupEvent.emission outB :: ([] ++ CleanupEvent.emission outB :: []))).acc =
      (cleanupRun "go".toList
        [CleanupEvent.arrival msgA, CleanupEvent.arrival msgB]).acc ++ tail) ∧
    2 ≤ ((cleanupRun "go".toList
        ([CleanupEvent.arrival msgA, CleanupEvent.arrival msgB] ++
          CleanupEvent.emission outB :: ([] ++ CleanupEvent.emission outB :: []))).published.count
          (publishedCancellation msgA)) :=
  cleanup_superseded_cancelled_again "go".toList
    [CleanupEvent.arrival msgA, CleanupEvent.arrival msgB] [] [] outB outB msgA
    (by decide) (by decide) (by decide)

/-- C1: once a first envelope matching the ask's messageID arrives on the
merged responses/cancelations sequence, the result is settled once and for
all — later envelopes cannot change it — and the settlement is exactly one
of three outcomes decided by that first (cancelations-marked) envelope: a
non-empty errors list fails with its first error; an envelope marked
cancelled completes without emitting a value; otherwise the envelope's
response field is emitted once. -/
theorem ask_settles_exactly_once (messageID : JStr)
    (merged : List (RespSource × MessageResponse)) (m : MessageResponse)
    (hfirst : askFirstMatch messageID merged = some m) :
    (∀ later, askResult messageID (merged ++ later) = askResult messageID merged) ∧
    (∀ e tl, m.errors = e :: tl → askResult messageID merged = some (.failed e)) ∧
    (m.errors = [] → m.cancelled = some true →
      askResult messageID merged = some .completedEmpty) ∧
    (m.errors = [] → m.cancelled ≠ some true →
      askResult messageID merged = some (.emitted m.response)) := by
  have hstable : ∀ later, askFirstMatch messageID (merged ++ later) = some m := by
    intro later
    unfold askFirstMatch at hfirst ⊢
    rw [List.filter_append, List.map_append]
    cases hl : (merged.filter (fun e => e.2.respId == messageID)).map markCancelled with
    | nil => rw [hl] at hfirst; simp at hfirst
    | cons x xs =>
      rw [hl] at hfirst
      simp only [List.head?] at hfirst
      rw [List.cons_append]
      simpa using hfirst
  refine ⟨?_, ?_, ?_, ?_⟩
  · intro later
    unfold askResult
    rw [hstable later, hfirst]
  · intro e tl he
    unfold askResult
    rw [hfirst]
    simp [askSettle, he]
  · intro he hc
    unfold askResult
    rw [hfirst]
    simp [askSettle, he, hc]
  · intro he hc
    unfold askResult
    rw [hfirst]
    simp [askSettle, he, hc]

/-- C1 witness: a single matching, uncancelled, error-free response envelope
settles the ask by emitting its response value. -/
theorem ask_settles_exactly_once_witness :
    askResult "m1".toList
      [(RespSource.fromResponses,
        { respId := "m1".toList, response := some "ok".toList
        , errors := [], cancelled := none })] =
      some (AskOutcome.emitted (some "ok".toList)) :=
  (ask_settles_exactly_once "m1".toList
    [(RespSource.fromResponses,
      { respId := "m1".toList, response := some "ok".toList
      , errors := [], cancelled := none })]
    { respId := "m1".toList, response := some "ok".toList
    , errors := [], cancelled := none }
    (by decide)).2.2.2 rfl (by decide)

/-- C6 counterexample: the array input holding one null entry contains an
invalid actor reference — `isActorRef` rejects it — yet `filter(Boolean)`
drops the entry before validation, so gracefulStop raises no configuration
error and proceeds with an empty stop sequence. -/
theorem gracefulStop_falsy_invalid_cex :
    isActorRef SuperviseArg.falsy = false ∧
    gracefulStopRefs (StopInput.array [SuperviseArg.falsy]) = .ok [] :=
  ⟨rfl, rfl⟩

/-- C6 (amended): gracefulStop raises the synchronous configuration error —
before any stop sequence is built — exactly when its input contains a
truthy entry that is not an actor reference (no string address); falsy
entries, including null and undefined, are silently dropped by
`filter(Boolean)` and never trigger the error. -/
theorem gracefulStop_error_iff (input : StopInput) :
    gracefulStopRefs input = .error () ↔
      ∃ v ∈ stopInputList input, jsTruthy v = true ∧ isActorRef v = false := by
  unfold gracefulStopRefs
  by_cases hall : ((stopInputList input).filter jsTruthy).all isActorRef
  · rw [if_pos hall]
    simp only [List.all_eq_true] at hall
    constructor
    · intro h
      exact absurd h (by simp)
    · rintro ⟨v, hv, htruthy, href⟩
      have hv2 : isActorRef v = true := hall v (List.mem_filter.mpr ⟨hv, htruthy⟩)
      rw [href] at hv2
      exact absurd hv2 (by simp)
  · rw [if_neg hall]
    constructor
    · intro _
      simp only [List.all_eq_true, not_forall] at hall
      obtain ⟨v, hv, href⟩ := hall
      have hmem := List.mem_filter.mp hv
      exact ⟨v, hmem.1, hmem.2, by simpa using href⟩
    · intro _
      rfl

theorem runTurn_drains (q : List ArbiterEnvelope) (log : List ArbiterEnvelope)
    (env : ArbiterEnvelope) :
    env ∈ (runTurn^[q.length + 1] ⟨log, q ++ [env]⟩).arbiterLog := by
  induction q generalizing log with
  | nil =>
    simp [runTurn]
  | cons task rest ih =>
    have hstep : runTurn ⟨log, (task :: rest) ++ [env]⟩ =
        ⟨log ++ [task], rest ++ [env]⟩ := by
      simp [runTurn]
    rw [List.length_cons, Function.iterate_succ_apply, hstep]
    exact ih (log ++ [task])

/-- C8: subscribing to an ask's send track pushes nothing onto the arbiter
during the caller's current synchronous turn — the arbiter log is unchanged
— because the send is queued on the message scheduler; the envelope reaches
the arbiter only after scheduler turns have run (once the queue ahead of it
has drained), so the target cannot see it, and the ask cannot complete,
synchronously. -/
theorem ask_send_is_asynchronous (env : ArbiterEnvelope) (s : SchedulerState) :
    (askSend env s).arbiterLog = s.arbiterLog ∧
    env ∈ (runTurn^[s.queue.length + 1] (askSend env s)).arbiterLog := by
  constructor
  · rfl
  · exact runTurn_drains s.queue s.arbiterLog env
